import Mathlib

/-!
Verification development for the noisegen audio core.

The definitions below are a shallow embedding of
`src/audio/worklets/NoiseProcessor.ts` and `src/audio/entropy/EntropyRng.ts`:

* 32-bit machine arithmetic is modelled as `Nat` with explicit `% 2^32`
  (JavaScript's `>>> 0` coercions);
* floating-point audio values are modelled as exact real numbers, and the
  crossfade progress (whose arithmetic is rational: increments of
  `1 / remaining`, resets to 0 and 1) as exact rationals;
* the mutable `NoiseProcessor` object becomes an explicit `EngineState`
  record, with `handleMessage` and the phases of `process` as pure
  state-transformers;
* `Math.floor(0.05 * sampleRate)` and `Math.floor(sampleRate * 0.5)` are
  modelled as the natural-number divisions `sampleRate / 20` and
  `sampleRate / 2`, their exact mathematical values.
-/

/-- Modulus for 32-bit unsigned arithmetic (`>>> 0` in the source). -/
def U32 : Nat := 0x100000000

/-- State of the xoshiro128++ generator: four unsigned 32-bit words
(`XoshiroState` in NoiseProcessor.ts). -/
structure XoshiroState where
  s0 : Nat
  s1 : Nat
  s2 : Nat
  s3 : Nat
deriving DecidableEq

/-- The source's `rotl(x, k) = ((x << k) | (x >>> (32 - k))) >>> 0`.
For a 32-bit `x` the left shift is reduced mod `2^32` and the two parts
occupy disjoint bit ranges, so the bitwise or is the rotated word. -/
def rotl (x k : Nat) : Nat := ((x <<< k) % U32) ||| (x >>> (32 - k))

/-- One step of xoshiro128++ (`xoshiroNext` in NoiseProcessor.ts): returns
the 32-bit output word and the successor state.  The sequencing of the
`let`s mirrors the source's mutation order exactly. -/
def xoshiroNext (state : XoshiroState) : Nat × XoshiroState :=
  let result := (rotl ((state.s0 + state.s3) % U32) 7 + state.s0) % U32
  let t := (state.s1 <<< 9) % U32
  let s2a := (state.s2 ^^^ state.s0) % U32
  let s3a := (state.s3 ^^^ state.s1) % U32
  let s1a := (state.s1 ^^^ s2a) % U32
  let s0a := (state.s0 ^^^ s3a) % U32
  let s2b := (s2a ^^^ t) % U32
  let s3b := rotl s3a 11
  (result, { s0 := s0a, s1 := s1a, s2 := s2b, s3 := s3b })

/-- The source's `nextSignedFloat`: maps the 32-bit output to a signed
float via `result / 0x100000000 * 2 - 1`, alongside the stepped state. -/
noncomputable def nextSignedFloat (state : XoshiroState) : Real × XoshiroState :=
  (((xoshiroNext state).1 : Real) / (U32 : Real) * 2 - 1, (xoshiroNext state).2)

/-- Stream of the first `n` output words from a given state: the sequence
observed when the step function is called `n` times. -/
def xoshiroStream (state : XoshiroState) : Nat → List Nat
  | 0 => []
  | n + 1 => (xoshiroNext state).1 :: xoshiroStream (xoshiroNext state).2 n

/-- The source's `initState`: builds a generator state from (up to) four
seed words, with the `??` fallback constants. -/
def initState (seeds : List Nat) : XoshiroState :=
  { s0 := seeds.getD 0 0x12345678
    s1 := seeds.getD 1 0x9abcdef0
    s2 := seeds.getD 2 0xdeadbeef
    s3 := seeds.getD 3 0xcafebabe }

/-- One iteration of the loop body of `mixEntropy`: word number `i` is
xored into state field `i mod 4`, rotated by 0 / 5 / 13 / 21 bits. -/
def mixWordInto (s : XoshiroState) (i : Nat) (word : Nat) : XoshiroState :=
  match i % 4 with
  | 0 => { s with s0 := (s.s0 ^^^ word) % U32 }
  | 1 => { s with s1 := (s.s1 ^^^ rotl word 5) % U32 }
  | 2 => { s with s2 := (s.s2 ^^^ rotl word 13) % U32 }
  | 3 => { s with s3 := (s.s3 ^^^ rotl word 21) % U32 }
  | _ => s

/-- The source's `mixEntropy`: fold every word of the batch into the state
by position, then advance the generator 8 times, discarding the outputs. -/
def mixEntropy (state : XoshiroState) (words : List Nat) : XoshiroState :=
  (fun s => (xoshiroNext s).2)^[8]
    (words.enum.foldl (fun s p => mixWordInto s p.1 p.2) state)

/-! ### Entropy pool (EntropyRng.ts) -/

/-- The source's `imul32`: 32-bit truncating integer multiply. -/
def imul32 (a b : Nat) : Nat := (a * b) % U32

/-- The source's `rotl32` (identical to `rotl` of NoiseProcessor.ts). -/
def rotl32 (x k : Nat) : Nat := ((x <<< k) % U32) ||| (x >>> (32 - k))

/-- `POOL_SIZE` of EntropyRng.ts: 8 words of 32 bits, a 256-bit pool. -/
def POOL_SIZE : Nat := 8

/-- The source's `mixWord`: avalanche-mix one word into the pool slot at
`index`; if the slot does not exist the pool is returned unchanged
(the source's early return on `undefined`). -/
def mixWord (pool : List Nat) (word : Nat) (index : Nat) : List Nat :=
  match pool[index]? with
  | none => pool
  | some poolVal =>
    let mixed := (poolVal ^^^ rotl32 word 13) % U32
    pool.set index ((imul32 mixed 0x9e3779b9 ^^^ rotl32 mixed 17) % U32)

/-- Pool state of `EntropyRng`: the 8-slot pool plus the rotating write
cursor `stirIndex`. -/
structure EntropyRngState where
  pool : List Nat
  stirIndex : Nat
deriving DecidableEq

/-- The source's `stir`: mix `word >>> 0` into the slot at the cursor and
advance the cursor by one, modulo the pool size. -/
def stir (st : EntropyRngState) (word : Nat) : EntropyRngState :=
  { pool := mixWord st.pool (word % U32) st.stirIndex
    stirIndex := (st.stirIndex + 1) % POOL_SIZE }

/-! ### Noise coloring filters -/

/-- Pink-filter accumulators (`PinkState` in NoiseProcessor.ts). -/
structure PinkState where
  b0 : Real
  b1 : Real
  b2 : Real

/-- The source's `initPinkState`: all accumulators zero. -/
def initPinkState : PinkState := { b0 := 0, b1 := 0, b2 := 0 }

/-- The source's `pinkFilter` (Paul Kellet 3-tap design): returns the pink
sample and the updated accumulators. -/
noncomputable def pinkFilter (pink : PinkState) (white : Real) : Real × PinkState :=
  let b0 := 0.99765 * pink.b0 + white * 0.0990460
  let b1 := 0.96300 * pink.b1 + white * 0.2965164
  let b2 := 0.57000 * pink.b2 + white * 1.0526913
  ((b0 + b1 + b2 + white * 0.1848) * 0.16, { b0 := b0, b1 := b1, b2 := b2 })

/-- Brown-filter state (`BrownState` in NoiseProcessor.ts): the integrator
accumulator plus the constants derived once at construction. -/
structure BrownState where
  b : Real
  decay : Real
  scale : Real
  gain : Real

/-- The source's `initBrownState`: `tau = 0.02`,
`decay = exp(-1/(sampleRate*tau))`, `scale = 1 - decay`,
`gain = sqrt((1+decay)/(1-decay)) * 0.5`, accumulator zero. -/
noncomputable def initBrownState (sampleRate : Nat) : BrownState :=
  let decay := Real.exp (-1 / ((sampleRate : Real) * 0.02))
  { b := 0
    decay := decay
    scale := 1 - decay
    gain := Real.sqrt ((1 + decay) / (1 - decay)) * 0.5 }

/-- The source's `brownFilter`: leaky integration, then the two sequential
clamping branches, then gain compensation on the output. -/
noncomputable def brownFilter (brown : BrownState) (white : Real) : Real × BrownState :=
  let b1 := brown.decay * brown.b + brown.scale * white
  let b2 := if b1 > 1 then 1 else b1
  let b3 := if b2 < -1 then -1 else b2
  (b3 * brown.gain, { brown with b := b3 })

/-- Folding `brownFilter` over a list of white samples (the state reached
after feeding the whole list, outputs discarded). -/
noncomputable def brownRun (brown : BrownState) : List Real → BrownState
  | [] => brown
  | w :: ws => brownRun (brownFilter brown w).2 ws

/-! ### Crossfade state machine -/

/-- The two coloring modes. -/
inductive Mode where
  | pink
  | brown
deriving DecidableEq

/-- The crossfade-relevant fields of the processor (`CrossfadeState` of the
spec's data model): current and target mode, `crossfadeProgress` and
`crossfadeSamplesRemaining`.  The remaining count is an integer because the
source decrements it below zero when a fade ends in mid-block. -/
structure CrossfadeState where
  currentMode : Mode
  targetMode : Mode
  progress : Rat
  samplesRemaining : Int
deriving DecidableEq

/-- Per-sample crossfade update from the body of `process` (lines
299-320): progress advances by the block's fixed increment, the remaining
count decrements, and when it reaches zero the state collapses to steady
at the target with progress pinned to 1. -/
def cfStep (inc : Rat) (s : CrossfadeState) : CrossfadeState :=
  let progress1 := s.progress + inc
  let remaining1 := s.samplesRemaining - 1
  if remaining1 ≤ 0 then
    { currentMode := s.targetMode, targetMode := s.targetMode
      progress := 1, samplesRemaining := remaining1 }
  else
    { currentMode := s.currentMode, targetMode := s.targetMode
      progress := progress1, samplesRemaining := remaining1 }

/-- Crossfade effect of one render block of `B` samples: `process` decides
`crossfading` and the increment `1 / crossfadeSamplesRemaining` once at
block start, then applies the per-sample update `B` times. -/
def cfBlock (B : Nat) (s : CrossfadeState) : CrossfadeState :=
  if 0 < s.samplesRemaining then
    (cfStep ((1 : Rat) / (s.samplesRemaining : Rat)))^[B] s
  else s

/-- Crossfade state after `k` samples have been rendered in blocks of size
`B`: whole blocks first, then the first `k % B` samples of the next block
with that block's increment. -/
def cfAt (B : Nat) (s : CrossfadeState) (k : Nat) : CrossfadeState :=
  let s1 := (cfBlock B)^[k / B] s
  if 0 < s1.samplesRemaining then
    (cfStep ((1 : Rat) / (s1.samplesRemaining : Rat)))^[k % B] s1
  else s1

/-- Equal-power blend from `process`:
`cos(0.5*pi*t) * old + sin(0.5*pi*t) * new`. -/
noncomputable def blend (t old new : Real) : Real :=
  Real.cos (0.5 * Real.pi * t) * old + Real.sin (0.5 * Real.pi * t) * new

/-- The source's `mode === 'pink' ? pinkSample : brownSample` selector. -/
def modeSelect (m : Mode) (pinkSample brownSample : Real) : Real :=
  match m with
  | Mode.pink => pinkSample
  | Mode.brown => brownSample

/-! ### The processor -/

/-- Messages of the worklet protocol (`WorkletMessage` in the source). -/
inductive WorkletMessage where
  | entropySeeds (seeds : List Nat)
  | initialSeeds (seeds : List Nat)
  | setMode (mode : Mode)

/-- The full mutable state of `NoiseProcessor`. -/
structure EngineState where
  stateL : XoshiroState
  stateR : XoshiroState
  pinkL : PinkState
  pinkR : PinkState
  brownL : BrownState
  brownR : BrownState
  currentMode : Mode
  targetMode : Mode
  crossfadeProgress : Rat
  crossfadeSamplesRemaining : Int
  seedQueue : List (List Nat)
  samplesSinceLastSeed : Nat
  initialized : Bool

/-- Projection of an engine state onto its crossfade fields. -/
def projCF (st : EngineState) : CrossfadeState :=
  { currentMode := st.currentMode, targetMode := st.targetMode
    progress := st.crossfadeProgress
    samplesRemaining := st.crossfadeSamplesRemaining }

/-- `Math.floor(crossfadeDuration * sampleRate)` with
`crossfadeDuration = 0.05`: the fade length in samples, `sampleRate / 20`. -/
def crossfadeTotal (sampleRate : Nat) : Nat := sampleRate / 20

/-- `Math.floor(sampleRate * 0.5)`: the seed-request threshold,
`sampleRate / 2`. -/
def seedRequestThreshold (sampleRate : Nat) : Nat := sampleRate / 2

/-- The constructor of `NoiseProcessor`: fallback seeds derived from the
frame counter, zeroed filters, steady pink mode, empty queue. -/
noncomputable def initEngine (sampleRate currentFrame : Nat) : EngineState :=
  let fallbackSeed := fun (i : Nat) =>
    (((currentFrame * 2654435761) % U32) ^^^ ((i * 0x9e3779b9) % U32)) % U32
  { stateL := initState [fallbackSeed 0, fallbackSeed 1, fallbackSeed 2, fallbackSeed 3]
    stateR := initState [fallbackSeed 4, fallbackSeed 5, fallbackSeed 6, fallbackSeed 7]
    pinkL := initPinkState
    pinkR := initPinkState
    brownL := initBrownState sampleRate
    brownR := initBrownState sampleRate
    currentMode := Mode.pink
    targetMode := Mode.pink
    crossfadeProgress := 1
    crossfadeSamplesRemaining := 0
    seedQueue := []
    samplesSinceLastSeed := 0
    initialized := false }

/-- The source's `handleMessage`: the three message cases, verbatim. -/
def handleMessage (sampleRate : Nat) (msg : WorkletMessage) (st : EngineState) :
    EngineState :=
  match msg with
  | WorkletMessage.initialSeeds seeds =>
    if st.initialized = false ∧ 8 ≤ seeds.length then
      { st with stateL := initState (seeds.take 4)
                stateR := initState ((seeds.drop 4).take 4)
                initialized := true }
    else st
  | WorkletMessage.entropySeeds seeds =>
    { st with seedQueue := st.seedQueue ++ [seeds] }
  | WorkletMessage.setMode mode =>
    if mode ≠ st.targetMode then
      if 1 ≤ st.crossfadeProgress then
        { st with targetMode := mode
                  crossfadeProgress := 0
                  crossfadeSamplesRemaining := (crossfadeTotal sampleRate : Int) }
      else { st with targetMode := mode }
    else st

/-- The entropy-check prelude of `process` (lines 255-265): add the block
size to the sample counter and, when the threshold is reached with fewer
than two queued batches, emit one need-seed request and reset the counter.
The boolean records whether the request was posted. -/
def backpressurePhase (sampleRate B : Nat) (st : EngineState) : EngineState × Bool :=
  let counter1 := st.samplesSinceLastSeed + B
  if seedRequestThreshold sampleRate ≤ counter1 ∧ st.seedQueue.length < 2 then
    ({ st with samplesSinceLastSeed := 0 }, true)
  else
    ({ st with samplesSinceLastSeed := counter1 }, false)

/-- The seed-mixing step of `process` (lines 267-274): dequeue at most one
batch, split it at `floor(length / 2)` and fold the halves into the left
and right generator states. -/
def mixPhase (st : EngineState) : EngineState :=
  match st.seedQueue with
  | [] => st
  | seed :: rest =>
    { st with stateL := mixEntropy st.stateL (seed.take (seed.length / 2))
              stateR := mixEntropy st.stateR (seed.drop (seed.length / 2))
              seedQueue := rest }

/-- One iteration of the sample loop of `process`: draw white noise on both
channels, run both filters, then either blend with the equal-power curve
and advance the crossfade, or pass the current mode through.  Returns the
stereo sample and the updated state. -/
noncomputable def renderSample (crossfading : Bool) (inc : Rat) (st : EngineState) :
    (Real × Real) × EngineState :=
  let (whiteL, stL) := nextSignedFloat st.stateL
  let (whiteR, stR) := nextSignedFloat st.stateR
  let (pinkSampleL, pkL) := pinkFilter st.pinkL whiteL
  let (pinkSampleR, pkR) := pinkFilter st.pinkR whiteR
  let (brownSampleL, brL) := brownFilter st.brownL whiteL
  let (brownSampleR, brR) := brownFilter st.brownR whiteR
  match crossfading with
  | true =>
    let sampleL := blend (st.crossfadeProgress : Real)
      (modeSelect st.currentMode pinkSampleL brownSampleL)
      (modeSelect st.targetMode pinkSampleL brownSampleL)
    let sampleR := blend (st.crossfadeProgress : Real)
      (modeSelect st.currentMode pinkSampleR brownSampleR)
      (modeSelect st.targetMode pinkSampleR brownSampleR)
    let progress1 := st.crossfadeProgress + inc
    let remaining1 := st.crossfadeSamplesRemaining - 1
    if remaining1 ≤ 0 then
      ((sampleL, sampleR),
        { st with stateL := stL, stateR := stR, pinkL := pkL, pinkR := pkR
                  brownL := brL, brownR := brR
                  currentMode := st.targetMode
                  crossfadeProgress := 1
                  crossfadeSamplesRemaining := remaining1 })
    else
      ((sampleL, sampleR),
        { st with stateL := stL, stateR := stR, pinkL := pkL, pinkR := pkR
                  brownL := brL, brownR := brR
                  crossfadeProgress := progress1
                  crossfadeSamplesRemaining := remaining1 })
  | false =>
    ((modeSelect st.currentMode pinkSampleL brownSampleL,
      modeSelect st.currentMode pinkSampleR brownSampleR),
      { st with stateL := stL, stateR := stR, pinkL := pkL, pinkR := pkR
                brownL := brL, brownR := brR })

/-- The sample loop of `process`: `crossfading` and the increment
`1 / crossfadeSamplesRemaining` are computed once at block start, then the
per-sample body runs `B` times. -/
noncomputable def renderPhase (B : Nat) (st : EngineState) : EngineState :=
  if 0 < st.crossfadeSamplesRemaining then
    (fun s => (renderSample true ((1 : Rat) / (st.crossfadeSamplesRemaining : Rat)) s).2)^[B] st
  else
    (fun s => (renderSample false 0 s).2)^[B] st

/-- One full `process` call on a block of `B` samples: backpressure check,
then seed mixing, then the sample loop.  The boolean is the emitted
need-seed request. -/
noncomputable def processBlock (sampleRate B : Nat) (st : EngineState) :
    EngineState × Bool :=
  let p := backpressurePhase sampleRate B st
  (renderPhase B (mixPhase p.1), p.2)

/-- State after `n` render blocks of size `B` with no intervening
messages. -/
noncomputable def blockRun (sampleRate B : Nat) (st : EngineState) (n : Nat) :
    EngineState :=
  (fun s => (processBlock sampleRate B s).1)^[n] st

/-- Reachable engine states: the freshly constructed processor, closed
under message handling and render blocks of any size. -/
inductive Reachable (sampleRate currentFrame : Nat) : EngineState → Prop where
  | init : Reachable sampleRate currentFrame (initEngine sampleRate currentFrame)
  | msg (m : WorkletMessage) {st : EngineState} :
      Reachable sampleRate currentFrame st →
      Reachable sampleRate currentFrame (handleMessage sampleRate m st)
  | block (B : Nat) {st : EngineState} :
      Reachable sampleRate currentFrame st →
      Reachable sampleRate currentFrame (processBlock sampleRate B st).1

/-! ### Demonstration run

A 100 Hz engine (fade length `100 / 20 = 5` samples) armed to fade from
pink to brown and rendered in blocks of 2 samples.  The fade spans three
blocks, which exhibits the per-block recomputation of the increment and
the mid-block end of the fade. -/

/-- The armed demo engine: a set-mode request on a fresh 100 Hz engine. -/
noncomputable def demoArmed : EngineState :=
  handleMessage 100 (WorkletMessage.setMode Mode.brown) (initEngine 100 0)

/-- The demo engine after `n` render blocks of 2 samples. -/
noncomputable def demoBlock (n : Nat) : EngineState := blockRun 100 2 demoArmed n

/-- The increment the engine computes at the start of its second block. -/
noncomputable def demoInc : Rat := 1 / ((demoBlock 1).crossfadeSamplesRemaining : Rat)

/-- The demo engine one sample into its second render block. -/
noncomputable def demoMid : EngineState := (renderSample true demoInc (demoBlock 1)).2

/-- The demo engine two samples into its second render block. -/
noncomputable def demoFin : EngineState := (renderSample true demoInc demoMid).2

/-! ## Helper lemmas -/

theorem U32_eq_pow : U32 = 2 ^ 32 := rfl

theorem lor_mod_two_pow (a b n : Nat) :
    (a ||| b) % 2 ^ n = a % 2 ^ n ||| b % 2 ^ n := by
  apply Nat.eq_of_testBit_eq
  intro i
  simp only [Nat.testBit_mod_two_pow, Nat.testBit_or]
  by_cases h : i < n <;> simp [h]

theorem shiftRight_lt_U32 {x : Nat} (m : Nat) (hx : x < U32) : x >>> m < U32 := by
  calc x >>> m ≤ x := by
        rw [Nat.shiftRight_eq_div_pow]
        exact Nat.div_le_self x (2 ^ m)
    _ < U32 := hx

theorem rotl_eq_masked {x : Nat} (k : Nat) (hx : x < U32) :
    rotl x k = ((x <<< k) ||| (x >>> (32 - k))) % U32 := by
  have hb : x >>> (32 - k) < 2 ^ 32 := by
    rw [← U32_eq_pow]
    exact shiftRight_lt_U32 (32 - k) hx
  rw [rotl, U32_eq_pow, lor_mod_two_pow, Nat.mod_eq_of_lt hb]

theorem xoshiroNext_fst_lt (s : XoshiroState) : (xoshiroNext s).1 < U32 := by
  rw [xoshiroNext]
  exact Nat.mod_lt _ (by norm_num [U32])

/-! ## C3: the PRNG step -/

/-- C3: one xoshiro128++ step returns
`result = (rotl((s0+s3) mod 2^32, 7) + s0) mod 2^32` and performs the
sequential state update `t = (s1 << 9) mod 2^32; s2 ^= s0; s3 ^= s1;
s1 ^= s2; s0 ^= s3; s2 ^= t; s3 = rotl(s3, 11)`, all arithmetic mod
`2^32`, with `rotl(x,k) = ((x << k) | (x >> (32-k)))` masked to 32 bits;
the per-sample float equals `result / 2^32 * 2 - 1` and lies in `[-1, 1)`;
and the step is pure, so identical initial states give bit-exact identical
output streams. -/
theorem xoshiroNext_spec (s : XoshiroState)
    (_h0 : s.s0 < U32) (_h1 : s.s1 < U32) (_h2 : s.s2 < U32) (_h3 : s.s3 < U32) :
    (xoshiroNext s).1 = (rotl ((s.s0 + s.s3) % U32) 7 + s.s0) % U32 ∧
    (xoshiroNext s).2.s0 = (s.s0 ^^^ (s.s3 ^^^ s.s1) % U32) % U32 ∧
    (xoshiroNext s).2.s1 = (s.s1 ^^^ (s.s2 ^^^ s.s0) % U32) % U32 ∧
    (xoshiroNext s).2.s2 = ((s.s2 ^^^ s.s0) % U32 ^^^ (s.s1 <<< 9) % U32) % U32 ∧
    (xoshiroNext s).2.s3 = rotl ((s.s3 ^^^ s.s1) % U32) 11 ∧
    (∀ x k, x < U32 → k ≤ 32 → rotl x k = ((x <<< k) ||| (x >>> (32 - k))) % U32) ∧
    (nextSignedFloat s).1 = ((xoshiroNext s).1 : Real) / (U32 : Real) * 2 - 1 ∧
    -1 ≤ (nextSignedFloat s).1 ∧ (nextSignedFloat s).1 < 1 ∧
    (∀ t : XoshiroState, s = t → ∀ n : Nat, xoshiroStream s n = xoshiroStream t n) := by
  refine ⟨rfl, rfl, rfl, rfl, rfl, fun x k hx _ => rotl_eq_masked k hx, rfl, ?_, ?_,
    fun t ht n => by rw [ht]⟩
  · have hge : (0 : Real) ≤ ((xoshiroNext s).1 : Real) / (U32 : Real) := by positivity
    rw [nextSignedFloat]
    dsimp only
    linarith [hge]
  · have hlt : ((xoshiroNext s).1 : Real) / (U32 : Real) < 1 := by
      rw [div_lt_one (by norm_num [U32])]
      exact_mod_cast xoshiroNext_fst_lt s
    rw [nextSignedFloat]
    dsimp only
    linarith [hlt]

/-- Witness for C3 at the concrete all-32-bit state `{1, 2, 3, 4}`. -/
theorem xoshiroNext_spec_witness :
    ((1 : Nat) < U32 ∧ (2 : Nat) < U32 ∧ (3 : Nat) < U32 ∧ (4 : Nat) < U32) ∧
    (xoshiroNext ⟨1, 2, 3, 4⟩).1 = (rotl ((1 + 4) % U32) 7 + 1) % U32 ∧
    -1 ≤ (nextSignedFloat ⟨1, 2, 3, 4⟩).1 ∧ (nextSignedFloat ⟨1, 2, 3, 4⟩).1 < 1 := by
  have h := xoshiroNext_spec ⟨1, 2, 3, 4⟩ (by norm_num [U32]) (by norm_num [U32])
    (by norm_num [U32]) (by norm_num [U32])
  obtain ⟨ha, _, _, _, _, _, _, hb, hc, _⟩ := h
  exact ⟨⟨by norm_num [U32], by norm_num [U32], by norm_num [U32], by norm_num [U32]⟩,
    ha, hb, hc⟩

/-! ## C9: the entropy-pool stir operation -/

/-- C9: `stir(w)` replaces only the slot at the current cursor with
`imul32(m, 0x9e3779b9) XOR rotl32(m, 17)` where
`m = slot XOR rotl32(w, 13)` (reduced mod 2^32 as in the source), leaves
every other pool slot unchanged, and advances the cursor by exactly one
modulo the pool size 8, so the cursor always points at a valid in-range
pool slot. -/
theorem stir_spec (st : EntropyRngState) (w : Nat)
    (hlen : st.pool.length = POOL_SIZE) (hidx : st.stirIndex < POOL_SIZE) :
    (∀ v, st.pool[st.stirIndex]? = some v →
      (stir st w).pool[st.stirIndex]? =
        some ((imul32 ((v ^^^ rotl32 (w % U32) 13) % U32) 0x9e3779b9 ^^^
          rotl32 ((v ^^^ rotl32 (w % U32) 13) % U32) 17) % U32)) ∧
    (∀ j, j ≠ st.stirIndex → (stir st w).pool[j]? = st.pool[j]?) ∧
    (stir st w).pool.length = POOL_SIZE ∧
    (stir st w).stirIndex = (st.stirIndex + 1) % POOL_SIZE ∧
    (stir st w).stirIndex < POOL_SIZE := by
  have hlt : st.stirIndex < st.pool.length := by rw [hlen]; exact hidx
  have hsome : st.pool[st.stirIndex]? = some st.pool[st.stirIndex] :=
    List.getElem?_eq_getElem hlt
  refine ⟨?_, ?_, ?_, rfl, ?_⟩
  · intro v hv
    have hveq : v = st.pool[st.stirIndex] := by
      rw [hsome] at hv
      exact (Option.some_injective _ hv).symm
    subst hveq
    show (mixWord st.pool (w % U32) st.stirIndex)[st.stirIndex]? = _
    rw [mixWord, hsome]
    exact List.getElem?_set_eq_of_lt _ hlt
  · intro j hj
    show (mixWord st.pool (w % U32) st.stirIndex)[j]? = st.pool[j]?
    rw [mixWord, hsome]
    exact List.getElem?_set_ne (fun h => hj h.symm)
  · show (mixWord st.pool (w % U32) st.stirIndex).length = POOL_SIZE
    rw [mixWord, hsome]
    rw [List.length_set]
    exact hlen
  · show (st.stirIndex + 1) % POOL_SIZE < POOL_SIZE
    exact Nat.mod_lt _ (by norm_num [POOL_SIZE])

/-- Witness for C9 at a concrete full pool with the cursor at slot 3. -/
theorem stir_spec_witness :
    (([10, 11, 12, 13, 14, 15, 16, 17] : List Nat).length = POOL_SIZE ∧ 3 < POOL_SIZE) ∧
    (stir ⟨[10, 11, 12, 13, 14, 15, 16, 17], 3⟩ 99).stirIndex = (3 + 1) % POOL_SIZE ∧
    (∀ j, j ≠ 3 →
      (stir ⟨[10, 11, 12, 13, 14, 15, 16, 17], 3⟩ 99).pool[j]? =
        ([10, 11, 12, 13, 14, 15, 16, 17] : List Nat)[j]?) := by
  have h := stir_spec ⟨[10, 11, 12, 13, 14, 15, 16, 17], 3⟩ 99 (by decide) (by decide)
  exact ⟨⟨by decide, by decide⟩, h.2.2.2.1, h.2.1⟩

/-! ## C8: the brown integrator clamp -/

theorem brownFilter_b_bounds (br : BrownState) (w : Real) :
    -1 ≤ (brownFilter br w).2.b ∧ (brownFilter br w).2.b ≤ 1 := by
  rw [brownFilter]
  dsimp only
  split
  · split
    · constructor <;> norm_num
    · constructor <;> norm_num
  · rename_i h1
    split
    · constructor <;> norm_num
    · rename_i h2
      push_neg at h1 h2
      exact ⟨h2, h1⟩

theorem brownFilter_constants (br : BrownState) (w : Real) :
    (brownFilter br w).2.decay = br.decay ∧ (brownFilter br w).2.scale = br.scale ∧
      (brownFilter br w).2.gain = br.gain := by
  rw [brownFilter]
  dsimp only
  exact ⟨rfl, rfl, rfl⟩

theorem brownRun_b_bounds (ws : List Real) (br : BrownState)
    (h : -1 ≤ br.b ∧ br.b ≤ 1) : -1 ≤ (brownRun br ws).b ∧ (brownRun br ws).b ≤ 1 := by
  induction ws generalizing br with
  | nil => exact h
  | cons w ws ih => exact ih _ (brownFilter_b_bounds br w)

theorem brownRun_constants (ws : List Real) (br : BrownState) :
    (brownRun br ws).decay = br.decay ∧ (brownRun br ws).scale = br.scale ∧
      (brownRun br ws).gain = br.gain := by
  induction ws generalizing br with
  | nil => exact ⟨rfl, rfl, rfl⟩
  | cons w ws ih =>
    have hc := brownFilter_constants br w
    have hr := ih (brownFilter br w).2
    rw [brownRun]
    exact ⟨hr.1.trans hc.1, hr.2.1.trans hc.2.1, hr.2.2.trans hc.2.2⟩

/-- C8: feeding any finite white-noise sequence through the brown filter,
the clamped accumulator stays in `[-1, 1]` after every update (here: after
every prefix of the input), the returned sample is always the updated
accumulator times the gain, and the constants
`decay = exp(-1/(sampleRate*0.02))`, `scale = 1 - decay`,
`gain = 0.5*sqrt((1+decay)/(1-decay))` are those computed at construction
and are never changed by the filter. -/
theorem brownFilter_spec (sampleRate : Nat) (ws : List Real) (n : Nat) :
    (-1 ≤ (brownRun (initBrownState sampleRate) (ws.take n)).b ∧
      (brownRun (initBrownState sampleRate) (ws.take n)).b ≤ 1) ∧
    (∀ (br : BrownState) (w : Real),
      (brownFilter br w).1 = (brownFilter br w).2.b * br.gain ∧
      (brownFilter br w).2.decay = br.decay ∧
      (brownFilter br w).2.scale = br.scale ∧
      (brownFilter br w).2.gain = br.gain) ∧
    (brownRun (initBrownState sampleRate) ws).decay =
      Real.exp (-1 / ((sampleRate : Real) * 0.02)) ∧
    (brownRun (initBrownState sampleRate) ws).scale =
      1 - Real.exp (-1 / ((sampleRate : Real) * 0.02)) ∧
    (brownRun (initBrownState sampleRate) ws).gain =
      0.5 * Real.sqrt ((1 + Real.exp (-1 / ((sampleRate : Real) * 0.02))) /
        (1 - Real.exp (-1 / ((sampleRate : Real) * 0.02)))) := by
  have hrun := brownRun_constants ws (initBrownState sampleRate)
  refine ⟨brownRun_b_bounds _ _ (by rw [initBrownState]; norm_num), ?_, ?_, ?_, ?_⟩
  · intro br w
    refine ⟨?_, brownFilter_constants br w⟩
    rw [brownFilter]
  · rw [hrun.1, initBrownState]
  · rw [hrun.2.1, initBrownState]
  · rw [hrun.2.2, initBrownState]
    exact mul_comm _ _

/-! ## C10: frame effect of entropy delivery and mixing -/

/-- C10: an entropy-seeds message only appends the batch to the pending
seed queue and changes no other engine field; and the mixing step at the
start of a render block mutates only the two channel PRNG states and the
queue — the pink accumulators, the brown accumulator and its derived
constants, and all crossfade fields are untouched by it. -/
theorem entropy_mixing_frame (sampleRate : Nat) (seeds : List Nat) (st : EngineState) :
    handleMessage sampleRate (WorkletMessage.entropySeeds seeds) st =
      { st with seedQueue := st.seedQueue ++ [seeds] } ∧
    (mixPhase st).pinkL = st.pinkL ∧
    (mixPhase st).pinkR = st.pinkR ∧
    (mixPhase st).brownL = st.brownL ∧
    (mixPhase st).brownR = st.brownR ∧
    (mixPhase st).currentMode = st.currentMode ∧
    (mixPhase st).targetMode = st.targetMode ∧
    (mixPhase st).crossfadeProgress = st.crossfadeProgress ∧
    (mixPhase st).crossfadeSamplesRemaining = st.crossfadeSamplesRemaining ∧
    (mixPhase st).samplesSinceLastSeed = st.samplesSinceLastSeed ∧
    (mixPhase st).initialized = st.initialized := by
  refine ⟨rfl, ?_⟩
  cases h : st.seedQueue with
  | nil => simp [mixPhase, h]
  | cons b rest => simp [mixPhase, h]

/-! ## C4: seed-batch consumption and mixing -/

/-- C4: each `process` call dequeues at most one pending batch (the queue
loses exactly its head); a dequeued batch of `n` words is split at
`floor(n/2)`, the first half mixed into the left channel state and the
remainder into the right; mixing xors word `i` into state field `i mod 4`
rotated left by 0/5/13/21 bits respectively, and afterwards always steps
the generator exactly 8 times with no output used. -/
theorem mixPhase_spec (st : EngineState) (s : XoshiroState) (ws : List Nat) (i w : Nat) :
    (mixPhase st).seedQueue = st.seedQueue.tail ∧
    (st.seedQueue = [] → mixPhase st = st) ∧
    (∀ b rest, st.seedQueue = b :: rest →
      mixPhase st =
        { st with stateL := mixEntropy st.stateL (b.take (b.length / 2))
                  stateR := mixEntropy st.stateR (b.drop (b.length / 2))
                  seedQueue := rest }) ∧
    mixEntropy s ws =
      (fun x => (xoshiroNext x).2)^[8]
        (ws.enum.foldl (fun a p => mixWordInto a p.1 p.2) s) ∧
    (i % 4 = 0 → mixWordInto s i w = { s with s0 := (s.s0 ^^^ w) % U32 }) ∧
    (i % 4 = 1 → mixWordInto s i w = { s with s1 := (s.s1 ^^^ rotl w 5) % U32 }) ∧
    (i % 4 = 2 → mixWordInto s i w = { s with s2 := (s.s2 ^^^ rotl w 13) % U32 }) ∧
    (i % 4 = 3 → mixWordInto s i w = { s with s3 := (s.s3 ^^^ rotl w 21) % U32 }) := by
  refine ⟨?_, ?_, ?_, rfl, ?_, ?_, ?_, ?_⟩
  · cases h : st.seedQueue with
    | nil => simp [mixPhase, h]
    | cons b rest => simp [mixPhase, h]
  · intro h
    simp [mixPhase, h]
  · intro b rest h
    simp [mixPhase, h]
  all_goals intro h
  all_goals rw [mixWordInto, h]

/-- Witness for C4 on a state holding one queued three-word batch. -/
theorem mixPhase_spec_witness :
    ({ initEngine 100 0 with seedQueue := [[5, 6, 7]] } : EngineState).seedQueue =
      [5, 6, 7] :: [] ∧
    mixPhase { initEngine 100 0 with seedQueue := [[5, 6, 7]] } =
      { initEngine 100 0 with
          stateL := mixEntropy (initEngine 100 0).stateL ([5, 6, 7].take 1)
          stateR := mixEntropy (initEngine 100 0).stateR ([5, 6, 7].drop 1)
          seedQueue := [] } ∧
    (2 % 4 = 2 → mixWordInto ⟨1, 2, 3, 4⟩ 2 9 =
      { (⟨1, 2, 3, 4⟩ : XoshiroState) with s2 := (3 ^^^ rotl 9 13) % U32 }) := by
  have h := mixPhase_spec { initEngine 100 0 with seedQueue := [[5, 6, 7]] } ⟨1, 2, 3, 4⟩ [] 2 9
  exact ⟨rfl, h.2.2.1 [5, 6, 7] [] rfl, h.2.2.2.2.2.2.1⟩

/-! ## C5: seeding messages (corrected) -/

/-- Counterexample for C5: the claim says every undersized or empty seed
payload — including an empty entropy-seeds batch — is handled with no
state mutation, but handling an empty entropy-seeds batch pushes it onto
the seed queue, mutating the engine state. -/
theorem c5_empty_entropy_mutates :
    handleMessage 48000 (WorkletMessage.entropySeeds []) (initEngine 48000 0) ≠
      initEngine 48000 0 := by
  intro h
  have hq := congrArg EngineState.seedQueue h
  have h0 : (initEngine 48000 0).seedQueue = [] := rfl
  rw [handleMessage] at hq
  dsimp only at hq
  rw [h0] at hq
  exact List.cons_ne_nil _ _ hq

/-- C5 as amended: only the first initial-seeds message with at least 8
words replaces both channel states (words 0-3 to the left channel, words
4-7 to the right); an initial-seeds message on an already keyed engine, or
with fewer than 8 words, causes no state mutation; an entropy-seeds
batch, by contrast, is never validated: whatever its size (empty
included), handling it appends it to the pending queue. -/
theorem handleMessage_seeds_spec (sampleRate : Nat) (st : EngineState) (seeds : List Nat) :
    (st.initialized = false → 8 ≤ seeds.length →
      handleMessage sampleRate (WorkletMessage.initialSeeds seeds) st =
        { st with stateL := initState (seeds.take 4)
                  stateR := initState ((seeds.drop 4).take 4)
                  initialized := true }) ∧
    (8 ≤ seeds.length →
      initState (seeds.take 4) =
        { s0 := seeds.getD 0 0, s1 := seeds.getD 1 0
          s2 := seeds.getD 2 0, s3 := seeds.getD 3 0 } ∧
      initState ((seeds.drop 4).take 4) =
        { s0 := seeds.getD 4 0, s1 := seeds.getD 5 0
          s2 := seeds.getD 6 0, s3 := seeds.getD 7 0 }) ∧
    (st.initialized = true →
      handleMessage sampleRate (WorkletMessage.initialSeeds seeds) st = st) ∧
    (seeds.length < 8 →
      handleMessage sampleRate (WorkletMessage.initialSeeds seeds) st = st) ∧
    handleMessage sampleRate (WorkletMessage.entropySeeds seeds) st =
      { st with seedQueue := st.seedQueue ++ [seeds] } := by
  refine ⟨?_, ?_, ?_, ?_, rfl⟩
  · intro hinit hlen
    rw [handleMessage]
    rw [if_pos ⟨hinit, hlen⟩]
  · intro hlen
    have hv : ∀ j, j < 8 → ∃ v, seeds[j]? = some v := by
      intro j hj
      exact ⟨_, List.getElem?_eq_getElem (lt_of_lt_of_le hj hlen)⟩
    obtain ⟨v0, e0⟩ := hv 0 (by omega)
    obtain ⟨v1, e1⟩ := hv 1 (by omega)
    obtain ⟨v2, e2⟩ := hv 2 (by omega)
    obtain ⟨v3, e3⟩ := hv 3 (by omega)
    obtain ⟨v4, e4⟩ := hv 4 (by omega)
    obtain ⟨v5, e5⟩ := hv 5 (by omega)
    obtain ⟨v6, e6⟩ := hv 6 (by omega)
    obtain ⟨v7, e7⟩ := hv 7 (by omega)
    constructor
    · rw [initState]
      have ht : ∀ j, j < 4 → (seeds.take 4)[j]? = seeds[j]? :=
        fun j hj => by simp [List.getElem?_take, hj]
      simp only [List.getD_eq_getElem?_getD, ht 0 (by omega), ht 1 (by omega),
        ht 2 (by omega), ht 3 (by omega), e0, e1, e2, e3, Option.getD_some]
    · rw [initState]
      have ht : ∀ j, j < 4 → ((seeds.drop 4).take 4)[j]? = seeds[4 + j]? := by
        intro j hj
        simp [List.getElem?_take, hj, List.getElem?_drop]
      simp only [List.getD_eq_getElem?_getD, ht 0 (by omega), ht 1 (by omega),
        ht 2 (by omega), ht 3 (by omega), e4, e5, e6, e7, Option.getD_some]
  · intro hinit
    rw [handleMessage]
    rw [if_neg]
    intro hcon
    rw [hinit] at hcon
    exact Bool.noConfusion hcon.1
  · intro hlen
    rw [handleMessage]
    rw [if_neg]
    intro hcon
    exact absurd hcon.2 (by omega)

/-- Witness for C5 (amended): a fresh engine keyed by an 8-word
initial-seeds message takes words 0-3 on the left and 4-7 on the right. -/
theorem handleMessage_seeds_spec_witness :
    ((initEngine 100 0).initialized = false ∧
      8 ≤ ([21, 22, 23, 24, 25, 26, 27, 28] : List Nat).length) ∧
    handleMessage 100 (WorkletMessage.initialSeeds [21, 22, 23, 24, 25, 26, 27, 28])
        (initEngine 100 0) =
      { initEngine 100 0 with
          stateL := initState ([21, 22, 23, 24, 25, 26, 27, 28].take 4)
          stateR := initState (([21, 22, 23, 24, 25, 26, 27, 28].drop 4).take 4)
          initialized := true } ∧
    initState ([21, 22, 23, 24, 25, 26, 27, 28].take 4) = ⟨21, 22, 23, 24⟩ := by
  have h := handleMessage_seeds_spec 100 (initEngine 100 0) [21, 22, 23, 24, 25, 26, 27, 28]
  refine ⟨⟨rfl, by norm_num⟩, h.1 rfl (by norm_num), ?_⟩
  rw [(h.2.1 (by norm_num)).1]
  rfl

/-! ## C7: set-mode requests -/

/-- C7: a set-mode message whose mode differs from the current target arms
a fade of `floor(0.05 * sampleRate)` samples with progress reset to 0 when
the engine is at rest (`progress >= 1`), and while a fade is active
(`progress < 1`) it updates only the target mode, leaving progress and the
remaining-sample count untouched, so a second request never restarts the
fade's timing. -/
theorem setMode_spec (sampleRate : Nat) (st : EngineState) (m : Mode)
    (h : m ≠ st.targetMode) :
    (1 ≤ st.crossfadeProgress →
      handleMessage sampleRate (WorkletMessage.setMode m) st =
        { st with targetMode := m
                  crossfadeProgress := 0
                  crossfadeSamplesRemaining := (crossfadeTotal sampleRate : Int) }) ∧
    (st.crossfadeProgress < 1 →
      handleMessage sampleRate (WorkletMessage.setMode m) st =
        { st with targetMode := m }) := by
  constructor
  · intro hp
    rw [handleMessage]
    rw [if_pos h, if_pos hp]
  · intro hp
    rw [handleMessage]
    rw [if_pos h, if_neg (not_le.mpr hp)]

/-- Witness for C7: a brown request on a fresh (steady, pink) engine arms
a fade with progress 0 and the 50 ms sample count. -/
theorem setMode_spec_witness :
    (Mode.brown ≠ (initEngine 48000 0).targetMode ∧
      1 ≤ (initEngine 48000 0).crossfadeProgress) ∧
    handleMessage 48000 (WorkletMessage.setMode Mode.brown) (initEngine 48000 0) =
      { initEngine 48000 0 with
          targetMode := Mode.brown
          crossfadeProgress := 0
          crossfadeSamplesRemaining := (crossfadeTotal 48000 : Int) } := by
  have h := setMode_spec 48000 (initEngine 48000 0) Mode.brown (by decide)
  exact ⟨⟨by decide, le_refl 1⟩, h.1 (le_refl 1)⟩

/-! ## Crossfade bridge lemmas: the engine's render loop projects onto the
crossfade state machine -/

theorem renderSample_true_projCF (inc : Rat) (st : EngineState) :
    projCF (renderSample true inc st).2 = cfStep inc (projCF st) := by
  rw [renderSample, cfStep]
  dsimp only [nextSignedFloat, pinkFilter, brownFilter]
  by_cases h : st.crossfadeSamplesRemaining - 1 ≤ 0
  · rw [if_pos h]
    show projCF _ = _
    rw [if_pos (show (projCF st).samplesRemaining - 1 ≤ 0 from h)]
    rfl
  · rw [if_neg h]
    show projCF _ = _
    rw [if_neg (show ¬ (projCF st).samplesRemaining - 1 ≤ 0 from h)]
    rfl

theorem renderSample_false_projCF (inc : Rat) (st : EngineState) :
    projCF (renderSample false inc st).2 = projCF st := by
  rw [renderSample]
  dsimp only [nextSignedFloat, pinkFilter, brownFilter]
  rfl

theorem renderSample_seedQueue (c : Bool) (inc : Rat) (st : EngineState) :
    (renderSample c inc st).2.seedQueue = st.seedQueue := by
  rw [renderSample]
  dsimp only [nextSignedFloat, pinkFilter, brownFilter]
  cases c with
  | false => rfl
  | true =>
    by_cases h : st.crossfadeSamplesRemaining - 1 ≤ 0
    · rw [if_pos h]
    · rw [if_neg h]

theorem renderSample_counter (c : Bool) (inc : Rat) (st : EngineState) :
    (renderSample c inc st).2.samplesSinceLastSeed = st.samplesSinceLastSeed := by
  rw [renderSample]
  dsimp only [nextSignedFloat, pinkFilter, brownFilter]
  cases c with
  | false => rfl
  | true =>
    by_cases h : st.crossfadeSamplesRemaining - 1 ≤ 0
    · rw [if_pos h]
    · rw [if_neg h]

theorem iterate_proj {α β : Type} (f : α → α) (g : β → β) (p : α → β)
    (h : ∀ a, p (f a) = g (p a)) (n : Nat) (a : α) : p (f^[n] a) = g^[n] (p a) := by
  induction n generalizing a with
  | zero => rfl
  | succ n ih =>
    rw [Function.iterate_succ_apply, Function.iterate_succ_apply, ih (f a), h a]

theorem iterate_pres {α γ : Type} (f : α → α) (p : α → γ)
    (h : ∀ a, p (f a) = p a) (n : Nat) (a : α) : p (f^[n] a) = p a := by
  induction n generalizing a with
  | zero => rfl
  | succ n ih =>
    rw [Function.iterate_succ_apply, ih, h]

theorem renderPhase_projCF (B : Nat) (st : EngineState) :
    projCF (renderPhase B st) = cfBlock B (projCF st) := by
  rw [renderPhase, cfBlock]
  by_cases h : 0 < st.crossfadeSamplesRemaining
  · rw [if_pos h, if_pos (show 0 < (projCF st).samplesRemaining from h)]
    exact iterate_proj _ _ _ (fun a => renderSample_true_projCF _ a) B st
  · rw [if_neg h, if_neg (show ¬ 0 < (projCF st).samplesRemaining from h)]
    exact iterate_pres _ _ (fun a => renderSample_false_projCF 0 a) B st

theorem renderPhase_seedQueue (B : Nat) (st : EngineState) :
    (renderPhase B st).seedQueue = st.seedQueue := by
  rw [renderPhase]
  by_cases h : 0 < st.crossfadeSamplesRemaining
  · rw [if_pos h]
    exact iterate_pres _ _ (fun a => renderSample_seedQueue true _ a) B st
  · rw [if_neg h]
    exact iterate_pres _ _ (fun a => renderSample_seedQueue false 0 a) B st

theorem renderPhase_counter (B : Nat) (st : EngineState) :
    (renderPhase B st).samplesSinceLastSeed = st.samplesSinceLastSeed := by
  rw [renderPhase]
  by_cases h : 0 < st.crossfadeSamplesRemaining
  · rw [if_pos h]
    exact iterate_pres _ _ (fun a => renderSample_counter true _ a) B st
  · rw [if_neg h]
    exact iterate_pres _ _ (fun a => renderSample_counter false 0 a) B st

theorem mixPhase_projCF (st : EngineState) : projCF (mixPhase st) = projCF st := by
  cases h : st.seedQueue with
  | nil => rw [mixPhase, h]
  | cons b rest =>
    rw [mixPhase, h]
    rfl

theorem backpressurePhase_projCF (sampleRate B : Nat) (st : EngineState) :
    projCF (backpressurePhase sampleRate B st).1 = projCF st := by
  rw [backpressurePhase]
  by_cases h : seedRequestThreshold sampleRate ≤ st.samplesSinceLastSeed + B ∧
      st.seedQueue.length < 2
  · rw [if_pos h]
    rfl
  · rw [if_neg h]
    rfl

theorem backpressurePhase_seedQueue (sampleRate B : Nat) (st : EngineState) :
    (backpressurePhase sampleRate B st).1.seedQueue = st.seedQueue := by
  rw [backpressurePhase]
  by_cases h : seedRequestThreshold sampleRate ≤ st.samplesSinceLastSeed + B ∧
      st.seedQueue.length < 2
  · rw [if_pos h]
  · rw [if_neg h]

theorem processBlock_projCF (sampleRate B : Nat) (st : EngineState) :
    projCF (processBlock sampleRate B st).1 = cfBlock B (projCF st) := by
  rw [processBlock]
  dsimp only
  rw [renderPhase_projCF, mixPhase_projCF, backpressurePhase_projCF]

theorem processBlock_seedQueue (sampleRate B : Nat) (st : EngineState) :
    (processBlock sampleRate B st).1.seedQueue = st.seedQueue.tail := by
  rw [processBlock]
  dsimp only
  rw [renderPhase_seedQueue]
  have hmix : (mixPhase (backpressurePhase sampleRate B st).1).seedQueue =
      (backpressurePhase sampleRate B st).1.seedQueue.tail := by
    cases h : (backpressurePhase sampleRate B st).1.seedQueue with
    | nil =>
      rw [mixPhase, h]
      show (backpressurePhase sampleRate B st).1.seedQueue = List.tail []
      rw [h]
      rfl
    | cons b rest =>
      rw [mixPhase, h]
      rfl
  rw [hmix, backpressurePhase_seedQueue]

theorem processBlock_counter (sampleRate B : Nat) (st : EngineState) :
    (processBlock sampleRate B st).1.samplesSinceLastSeed =
      if seedRequestThreshold sampleRate ≤ st.samplesSinceLastSeed + B ∧
          st.seedQueue.length < 2 then 0
      else st.samplesSinceLastSeed + B := by
  rw [processBlock]
  dsimp only
  rw [renderPhase_counter]
  have hmix : ∀ s : EngineState, (mixPhase s).samplesSinceLastSeed =
      s.samplesSinceLastSeed := by
    intro s
    cases h : s.seedQueue with
    | nil => rw [mixPhase, h]
    | cons b rest => rw [mixPhase, h]
  rw [hmix, backpressurePhase]
  by_cases h : seedRequestThreshold sampleRate ≤ st.samplesSinceLastSeed + B ∧
      st.seedQueue.length < 2
  · rw [if_pos h, if_pos h]
  · rw [if_neg h, if_neg h]

theorem processBlock_emits (sampleRate B : Nat) (st : EngineState) :
    ((processBlock sampleRate B st).2 = true ↔
      seedRequestThreshold sampleRate ≤ st.samplesSinceLastSeed + B ∧
        st.seedQueue.length < 2) := by
  rw [processBlock]
  dsimp only
  rw [backpressurePhase]
  by_cases h : seedRequestThreshold sampleRate ≤ st.samplesSinceLastSeed + B ∧
      st.seedQueue.length < 2
  · rw [if_pos h]
    simp only [Prod.snd]
    simpa using h
  · rw [if_neg h]
    simp only [Prod.snd]
    simpa using h

/-! ## Crossfade iteration characterization -/

theorem cfStep_iter (inc : Rat) (cur tgt : Mode) (p : Rat) (r : Int) (hr : 0 < r) :
    ∀ j : Nat, (cfStep inc)^[j] ⟨cur, tgt, p, r⟩ =
      if (j : Int) < r then ⟨cur, tgt, p + (j : Rat) * inc, r - (j : Int)⟩
      else ⟨tgt, tgt, 1, r - (j : Int)⟩ := by
  intro j
  induction j with
  | zero =>
    rw [Function.iterate_zero_apply, if_pos (by exact_mod_cast hr)]
    simp
  | succ j ih =>
    rw [Function.iterate_succ_apply', ih]
    by_cases hj : (j : Int) < r
    · rw [if_pos hj]
      by_cases hj1 : ((j + 1 : Nat) : Int) < r
      · rw [if_pos hj1, cfStep]
        dsimp only
        rw [if_neg (by push_cast at hj1 ⊢; omega)]
        simp only [CrossfadeState.mk.injEq, true_and]
        refine ⟨by push_cast; ring, by push_cast; ring⟩
      · rw [if_neg hj1, cfStep]
        dsimp only
        rw [if_pos (by push_cast at hj1 ⊢; omega)]
        simp only [CrossfadeState.mk.injEq, true_and]
        push_cast
        ring
    · rw [if_neg hj]
      have hj1 : ¬ ((j + 1 : Nat) : Int) < r := by push_cast at hj ⊢; omega
      rw [if_neg hj1, cfStep]
      dsimp only
      rw [if_pos (by omega)]
      simp only [CrossfadeState.mk.injEq, true_and]
      push_cast
      ring

theorem cfBlock_char (B : Nat) (cur tgt : Mode) (p : Rat) (r : Int) (hr : 0 < r) :
    cfBlock B ⟨cur, tgt, p, r⟩ =
      if (B : Int) < r then ⟨cur, tgt, p + (B : Rat) * (1 / (r : Rat)), r - (B : Int)⟩
      else ⟨tgt, tgt, 1, r - (B : Int)⟩ := by
  rw [cfBlock]
  rw [if_pos (show (0 : Int) < (⟨cur, tgt, p, r⟩ : CrossfadeState).samplesRemaining from hr)]
  exact cfStep_iter _ cur tgt p r hr B

theorem cfBlock_steady (B : Nat) (s : CrossfadeState) (h : s.samplesRemaining ≤ 0) :
    cfBlock B s = s := by
  rw [cfBlock, if_neg (not_lt.mpr h)]

theorem cfBlocks_char (R B : Nat) (hR : 0 < R) (hB : 0 < B) (cur tgt : Mode) (n : Nat) :
    ((n : Int) * (B : Int) < (R : Int) →
      ∃ p : Rat, (cfBlock B)^[n] ⟨cur, tgt, 0, (R : Int)⟩ =
        ⟨cur, tgt, p, (R : Int) - (n : Int) * (B : Int)⟩) ∧
    ((R : Int) ≤ (n : Int) * (B : Int) →
      ∃ r : Int, r ≤ 0 ∧ (cfBlock B)^[n] ⟨cur, tgt, 0, (R : Int)⟩ = ⟨tgt, tgt, 1, r⟩) := by
  induction n with
  | zero =>
    constructor
    · intro _
      refine ⟨0, ?_⟩
      simp
    · intro h
      exfalso
      push_cast at h
      omega
  | succ n ih =>
    have hexp : ((n : Int) + 1) * (B : Int) = (n : Int) * (B : Int) + (B : Int) := by ring
    constructor
    · intro h1
      push_cast at h1
      have hn : (n : Int) * (B : Int) < (R : Int) := by linarith [hexp, Int.ofNat_nonneg B]
      obtain ⟨p, hp⟩ := ih.1 hn
      rw [Function.iterate_succ_apply', hp,
        cfBlock_char B cur tgt p _ (by linarith)]
      rw [if_pos (by linarith)]
      refine ⟨p + (B : Rat) * (1 / (((R : Int) - (n : Int) * (B : Int) : Int) : Rat)), ?_⟩
      simp only [CrossfadeState.mk.injEq, true_and]
      push_cast
      ring
    · intro h1
      push_cast at h1
      by_cases hn : (n : Int) * (B : Int) < (R : Int)
      · obtain ⟨p, hp⟩ := ih.1 hn
        rw [Function.iterate_succ_apply', hp,
          cfBlock_char B cur tgt p _ (by linarith)]
        rw [if_neg (by linarith)]
        exact ⟨(R : Int) - (n : Int) * (B : Int) - (B : Int), by linarith, rfl⟩
      · obtain ⟨r, hr0, hrs⟩ := ih.2 (not_lt.mp hn)
        rw [Function.iterate_succ_apply', hrs, cfBlock_steady B _ hr0]
        exact ⟨r, hr0, rfl⟩

theorem cfAt_char (R B k : Nat) (hR : 0 < R) (hB : 0 < B) (cur tgt : Mode) :
    (k < R →
      (cfAt B ⟨cur, tgt, 0, (R : Int)⟩ k).currentMode = cur ∧
      (cfAt B ⟨cur, tgt, 0, (R : Int)⟩ k).targetMode = tgt ∧
      (cfAt B ⟨cur, tgt, 0, (R : Int)⟩ k).samplesRemaining = (R : Int) - (k : Int)) ∧
    (R ≤ k →
      (cfAt B ⟨cur, tgt, 0, (R : Int)⟩ k).currentMode = tgt ∧
      (cfAt B ⟨cur, tgt, 0, (R : Int)⟩ k).targetMode = tgt ∧
      (cfAt B ⟨cur, tgt, 0, (R : Int)⟩ k).progress = 1) := by
  have hk : B * (k / B) + k % B = k := Nat.div_add_mod k B
  have hjB : k % B < B := Nat.mod_lt _ hB
  have hnk : (B : Int) * (↑(k / B) : Int) + (↑(k % B) : Int) = (k : Int) := by
    exact_mod_cast hk
  constructor
  · intro hkR
    have hn : (↑(k / B) : Int) * (B : Int) < (R : Int) := by
      have : (↑(k % B) : Int) ≥ 0 := Int.ofNat_nonneg _
      have hkR' : (k : Int) < (R : Int) := by exact_mod_cast hkR
      linarith
    obtain ⟨p, hp⟩ := (cfBlocks_char R B hR hB cur tgt (k / B)).1 hn
    have hstate : cfAt B ⟨cur, tgt, 0, (R : Int)⟩ k =
        ⟨cur, tgt, p + (↑(k % B) : Rat) *
          (1 / (((R : Int) - (↑(k / B) : Int) * (B : Int) : Int) : Rat)),
          (R : Int) - (k : Int)⟩ := by
      rw [cfAt]
      rw [hp]
      rw [if_pos (show (0 : Int) <
        (⟨cur, tgt, p, (R : Int) - (↑(k / B) : Int) * (B : Int)⟩ :
          CrossfadeState).samplesRemaining by show (0 : Int) < (R : Int) - (↑(k / B) : Int) * (B : Int); linarith)]
      rw [cfStep_iter _ cur tgt p _ (by linarith) (k % B)]
      rw [if_pos (by
        have hkR' : (k : Int) < (R : Int) := by exact_mod_cast hkR
        linarith)]
      simp only [CrossfadeState.mk.injEq, true_and]
      linarith
    rw [hstate]
    exact ⟨rfl, rfl, rfl⟩
  · intro hRk
    have hRk' : (R : Int) ≤ (k : Int) := by exact_mod_cast hRk
    by_cases hn : (↑(k / B) : Int) * (B : Int) < (R : Int)
    · obtain ⟨p, hp⟩ := (cfBlocks_char R B hR hB cur tgt (k / B)).1 hn
      have hstate : cfAt B ⟨cur, tgt, 0, (R : Int)⟩ k =
          ⟨tgt, tgt, 1, (R : Int) - (↑(k / B) : Int) * (B : Int) - (↑(k % B) : Int)⟩ := by
        rw [cfAt]
        rw [hp]
        rw [if_pos (show (0 : Int) <
          (⟨cur, tgt, p, (R : Int) - (↑(k / B) : Int) * (B : Int)⟩ :
            CrossfadeState).samplesRemaining by show (0 : Int) < (R : Int) - (↑(k / B) : Int) * (B : Int); linarith)]
        rw [cfStep_iter _ cur tgt p _ (by linarith) (k % B)]
        rw [if_neg (by push_cast; intro hcon; linarith)]
      rw [hstate]
      exact ⟨rfl, rfl, rfl⟩
    · obtain ⟨r, hr0, hrs⟩ := (cfBlocks_char R B hR hB cur tgt (k / B)).2 (not_lt.mp hn)
      have hstate : cfAt B ⟨cur, tgt, 0, (R : Int)⟩ k = ⟨tgt, tgt, 1, r⟩ := by
        rw [cfAt]
        rw [hrs]
        rw [if_neg (show ¬ (0 : Int) <
          (⟨tgt, tgt, 1, r⟩ : CrossfadeState).samplesRemaining from not_lt.mpr hr0)]
      rw [hstate]
      exact ⟨rfl, rfl, rfl⟩

/-! ## C2: the rest invariant (corrected) -/

theorem cfStep_rest (inc : Rat) (s : CrossfadeState) :
    (cfStep inc s).samplesRemaining ≤ 0 →
      (cfStep inc s).progress = 1 ∧
        (cfStep inc s).currentMode = (cfStep inc s).targetMode := by
  rw [cfStep]
  by_cases hc : s.samplesRemaining - 1 ≤ 0
  · rw [if_pos hc]
    intro _
    exact ⟨rfl, rfl⟩
  · rw [if_neg hc]
    intro hcon
    exact absurd hcon hc

theorem cfBlock_rest (B : Nat) (s : CrossfadeState)
    (h : s.samplesRemaining ≤ 0 → s.progress = 1 ∧ s.currentMode = s.targetMode) :
    (cfBlock B s).samplesRemaining ≤ 0 →
      (cfBlock B s).progress = 1 ∧
        (cfBlock B s).currentMode = (cfBlock B s).targetMode := by
  rw [cfBlock]
  by_cases h0 : 0 < s.samplesRemaining
  · rw [if_pos h0]
    cases B with
    | zero =>
      rw [Function.iterate_zero_apply]
      intro hc
      exact absurd h0 (not_lt.mpr hc)
    | succ B =>
      rw [Function.iterate_succ_apply']
      exact cfStep_rest _ _
  · rw [if_neg h0]
    exact h

/-- C2 as amended: in every reachable engine state, whenever
`crossfadeSamplesRemaining ≤ 0` the engine is at rest with
`crossfadeProgress = 1` and `currentMode = targetMode`.  (The remaining
count can be negative at rest — a fade that ends in mid-block keeps
decrementing it — and during a multi-block fade the progress can reach or
exceed 1 while the remaining count is still positive, so the original
three-way equivalence with `samplesRemaining == 0` and the transient bound
`progress < 1` both fail; see the counterexample.) -/
theorem reachable_rest_inv (sampleRate currentFrame : Nat)
    (hR : 0 < crossfadeTotal sampleRate) (st : EngineState)
    (h : Reachable sampleRate currentFrame st)
    (hrem : st.crossfadeSamplesRemaining ≤ 0) :
    st.crossfadeProgress = 1 ∧ st.currentMode = st.targetMode := by
  revert hrem
  induction h with
  | init => exact fun _ => ⟨rfl, rfl⟩
  | @msg m st' hst ih =>
    cases m with
    | entropySeeds seeds => exact ih
    | initialSeeds seeds =>
      rw [handleMessage]
      by_cases hc : st'.initialized = false ∧ 8 ≤ seeds.length
      · rw [if_pos hc]
        exact ih
      · rw [if_neg hc]
        exact ih
    | setMode m =>
      rw [handleMessage]
      by_cases h1 : m ≠ st'.targetMode
      · rw [if_pos h1]
        by_cases h2 : 1 ≤ st'.crossfadeProgress
        · rw [if_pos h2]
          intro hcon
          have hcon' : ((crossfadeTotal sampleRate : Nat) : Int) ≤ 0 := hcon
          omega
        · rw [if_neg h2]
          intro hcon
          have hp := (ih hcon).1
          rw [hp] at h2
          exact absurd (le_refl 1) h2
      · rw [if_neg h1]
        exact ih
  | @block B st' hst ih =>
    intro hcon
    have hproj := processBlock_projCF sampleRate B st'
    have h1 := congrArg CrossfadeState.progress hproj
    have h2 := congrArg CrossfadeState.currentMode hproj
    have h3 := congrArg CrossfadeState.targetMode hproj
    have h4 := congrArg CrossfadeState.samplesRemaining hproj
    have hcf := cfBlock_rest B (projCF st') ih (h4 ▸ hcon)
    exact ⟨h1.trans hcf.1, h2.trans (hcf.2.trans h3.symm)⟩

/-- Witness for C2 (amended) at the freshly constructed engine. -/
theorem reachable_rest_inv_witness :
    (0 < crossfadeTotal 48000 ∧
      (initEngine 48000 0).crossfadeSamplesRemaining ≤ 0) ∧
    ((initEngine 48000 0).crossfadeProgress = 1 ∧
      (initEngine 48000 0).currentMode = (initEngine 48000 0).targetMode) := by
  refine ⟨⟨by norm_num [crossfadeTotal], le_refl 0⟩, ?_⟩
  exact reachable_rest_inv 48000 0 (by norm_num [crossfadeTotal]) _
    Reachable.init (le_refl 0)

/-! ## Evaluation of the demonstration run -/

theorem blockRun_projCF (sampleRate B : Nat) (st : EngineState) (n : Nat) :
    projCF (blockRun sampleRate B st n) = (cfBlock B)^[n] (projCF st) :=
  iterate_proj _ _ projCF (fun a => processBlock_projCF sampleRate B a) n st

theorem demoArmed_projCF : projCF demoArmed = ⟨Mode.pink, Mode.brown, 0, 5⟩ := by
  rw [demoArmed, handleMessage]
  rw [if_pos (show Mode.brown ≠ (initEngine 100 0).targetMode by decide)]
  rw [if_pos (show (1 : Rat) ≤ (initEngine 100 0).crossfadeProgress from le_refl 1)]
  rfl

theorem demo_cf1 : cfBlock 2 (⟨Mode.pink, Mode.brown, 0, 5⟩ : CrossfadeState) =
    ⟨Mode.pink, Mode.brown, 2/5, 3⟩ := by
  rw [cfBlock_char 2 Mode.pink Mode.brown 0 5 (by norm_num)]
  rw [if_pos (by norm_num)]
  simp only [CrossfadeState.mk.injEq, true_and]
  norm_num

theorem demo_cf2 : cfBlock 2 (⟨Mode.pink, Mode.brown, 2/5, 3⟩ : CrossfadeState) =
    ⟨Mode.pink, Mode.brown, 16/15, 1⟩ := by
  rw [cfBlock_char 2 Mode.pink Mode.brown (2/5) 3 (by norm_num)]
  rw [if_pos (by norm_num)]
  simp only [CrossfadeState.mk.injEq, true_and]
  norm_num

theorem demo_cf3 : cfBlock 2 (⟨Mode.pink, Mode.brown, 16/15, 1⟩ : CrossfadeState) =
    ⟨Mode.brown, Mode.brown, 1, -1⟩ := by
  rw [cfBlock_char 2 Mode.pink Mode.brown (16/15) 1 (by norm_num)]
  rw [if_neg (by norm_num)]
  simp only [CrossfadeState.mk.injEq, true_and]
  norm_num

theorem demoBlock_one : projCF (demoBlock 1) = ⟨Mode.pink, Mode.brown, 2/5, 3⟩ := by
  rw [demoBlock, blockRun_projCF, demoArmed_projCF, Function.iterate_one, demo_cf1]

theorem demoBlock_two : projCF (demoBlock 2) = ⟨Mode.pink, Mode.brown, 16/15, 1⟩ := by
  rw [demoBlock, blockRun_projCF, demoArmed_projCF]
  show cfBlock 2 (cfBlock 2 ⟨Mode.pink, Mode.brown, 0, 5⟩) = _
  rw [demo_cf1, demo_cf2]

theorem demoBlock_three : projCF (demoBlock 3) = ⟨Mode.brown, Mode.brown, 1, -1⟩ := by
  rw [demoBlock, blockRun_projCF, demoArmed_projCF]
  show cfBlock 2 (cfBlock 2 (cfBlock 2 ⟨Mode.pink, Mode.brown, 0, 5⟩)) = _
  rw [demo_cf1, demo_cf2, demo_cf3]

theorem demoInc_val : demoInc = 1/3 := by
  have h : (demoBlock 1).crossfadeSamplesRemaining = 3 :=
    congrArg CrossfadeState.samplesRemaining demoBlock_one
  rw [demoInc, h]
  norm_num

theorem demoMid_projCF : projCF demoMid = ⟨Mode.pink, Mode.brown, 11/15, 2⟩ := by
  rw [demoMid, renderSample_true_projCF, demoBlock_one, demoInc_val, cfStep]
  rw [if_neg (by norm_num)]
  simp only [CrossfadeState.mk.injEq, true_and]
  norm_num

theorem demoFin_projCF : projCF demoFin = ⟨Mode.pink, Mode.brown, 16/15, 1⟩ := by
  rw [demoFin, renderSample_true_projCF, demoMid_projCF, demoInc_val, cfStep]
  rw [if_neg (by norm_num)]
  simp only [CrossfadeState.mk.injEq, true_and]
  norm_num

/-- Counterexample for C2: after two render blocks of the demonstration
fade the engine is still fading (`crossfadeSamplesRemaining = 1 > 0`) yet
`crossfadeProgress = 16/15 > 1`, refuting "progress stays below 1 while
samplesRemaining > 0"; and one block later the engine is at rest with
`progress = 1` and `currentMode = targetMode` while
`samplesRemaining = -1 ≠ 0`, refuting the three-way equivalence with
`samplesRemaining == 0`. -/
theorem rest_invariant_counterexample :
    ((demoBlock 2).crossfadeSamplesRemaining = 1 ∧
      (demoBlock 2).crossfadeProgress = 16/15 ∧
      1 < (demoBlock 2).crossfadeProgress) ∧
    ((demoBlock 3).crossfadeProgress = 1 ∧
      (demoBlock 3).currentMode = (demoBlock 3).targetMode ∧
      (demoBlock 3).crossfadeSamplesRemaining = -1) := by
  have e2r : (demoBlock 2).crossfadeSamplesRemaining = 1 :=
    congrArg CrossfadeState.samplesRemaining demoBlock_two
  have e2p : (demoBlock 2).crossfadeProgress = 16/15 :=
    congrArg CrossfadeState.progress demoBlock_two
  have e3p : (demoBlock 3).crossfadeProgress = 1 :=
    congrArg CrossfadeState.progress demoBlock_three
  have e3c : (demoBlock 3).currentMode = Mode.brown :=
    congrArg CrossfadeState.currentMode demoBlock_three
  have e3t : (demoBlock 3).targetMode = Mode.brown :=
    congrArg CrossfadeState.targetMode demoBlock_three
  have e3r : (demoBlock 3).crossfadeSamplesRemaining = -1 :=
    congrArg CrossfadeState.samplesRemaining demoBlock_three
  refine ⟨⟨e2r, e2p, ?_⟩, e3p, e3c.trans e3t.symm, e3r⟩
  rw [e2p]
  norm_num

/-- Counterexample for C1: in the demonstration fade's second render
block the engine state entering its second sample has `remaining = 2`,
but the progress increment actually applied is the block-start value
`1/3` — not `1/remaining = 1/2`, and not `1/R = 1/5` either — so
"progress increments by 1/remaining each sample" fails as stated. -/
theorem crossfade_increment_counterexample :
    (demoBlock 1).crossfadeSamplesRemaining = 3 ∧
    demoMid.crossfadeSamplesRemaining = 2 ∧
    demoMid.crossfadeProgress = 11/15 ∧
    demoFin.crossfadeProgress = 16/15 ∧
    demoFin.crossfadeProgress - demoMid.crossfadeProgress ≠
      1 / (demoMid.crossfadeSamplesRemaining : Rat) ∧
    demoFin.crossfadeProgress - demoMid.crossfadeProgress ≠
      1 / ((crossfadeTotal 100 : Nat) : Rat) := by
  have e1 : (demoBlock 1).crossfadeSamplesRemaining = 3 :=
    congrArg CrossfadeState.samplesRemaining demoBlock_one
  have emr : demoMid.crossfadeSamplesRemaining = 2 :=
    congrArg CrossfadeState.samplesRemaining demoMid_projCF
  have emp : demoMid.crossfadeProgress = 11/15 :=
    congrArg CrossfadeState.progress demoMid_projCF
  have efp : demoFin.crossfadeProgress = 16/15 :=
    congrArg CrossfadeState.progress demoFin_projCF
  refine ⟨e1, emr, emp, efp, ?_, ?_⟩
  · rw [efp, emp, emr]
    norm_num
  · rw [efp, emp, show (crossfadeTotal 100 : Nat) = 5 from rfl]
    norm_num

/-! ## C1: crossfade dynamics and completion (corrected) -/

/-- C1 as amended: during a crossfade of initial length
`R = floor(0.05*sampleRate)`, each rendered sample adds the per-block
constant `1/(remaining at block start)` to the progress (not
`1/(current remaining)`) and decrements the remaining count; at the
sample where the count reaches zero — exactly the R-th sample of the
fade — the state collapses to steady with progress pinned to 1 and
`currentMode = targetMode`; the blended sample equals
`cos(0.5*pi*progress)*old + sin(0.5*pi*progress)*new`, so at progress 0
the output is the old-mode output, at progress 1 the new-mode output,
and at progress 0.5 both gains equal `cos(pi/4) ≈ 0.7071`. -/
theorem crossfade_spec (sampleRate B : Nat) (cur tgt : Mode)
    (hR : 0 < crossfadeTotal sampleRate) (hB : 0 < B) :
    (∀ (inc : Rat) (s : CrossfadeState), 1 < s.samplesRemaining →
      cfStep inc s =
        ⟨s.currentMode, s.targetMode, s.progress + inc, s.samplesRemaining - 1⟩) ∧
    (∀ (inc : Rat) (s : CrossfadeState), s.samplesRemaining = 1 →
      cfStep inc s = ⟨s.targetMode, s.targetMode, 1, 0⟩) ∧
    (∀ (inc : Rat) (st : EngineState),
      projCF (renderSample true inc st).2 = cfStep inc (projCF st)) ∧
    (∀ st : EngineState,
      projCF (processBlock sampleRate B st).1 = cfBlock B (projCF st)) ∧
    (∀ k, k < crossfadeTotal sampleRate →
      (cfAt B ⟨cur, tgt, 0, (crossfadeTotal sampleRate : Int)⟩ k).currentMode = cur ∧
      (cfAt B ⟨cur, tgt, 0, (crossfadeTotal sampleRate : Int)⟩ k).samplesRemaining =
        (crossfadeTotal sampleRate : Int) - (k : Int)) ∧
    (∀ k, crossfadeTotal sampleRate ≤ k →
      (cfAt B ⟨cur, tgt, 0, (crossfadeTotal sampleRate : Int)⟩ k).currentMode = tgt ∧
      (cfAt B ⟨cur, tgt, 0, (crossfadeTotal sampleRate : Int)⟩ k).progress = 1) ∧
    (∀ (st : EngineState) (inc : Rat),
      (renderSample true inc st).1.1 =
        blend (st.crossfadeProgress : Real)
          (modeSelect st.currentMode
            (pinkFilter st.pinkL (nextSignedFloat st.stateL).1).1
            (brownFilter st.brownL (nextSignedFloat st.stateL).1).1)
          (modeSelect st.targetMode
            (pinkFilter st.pinkL (nextSignedFloat st.stateL).1).1
            (brownFilter st.brownL (nextSignedFloat st.stateL).1).1)) ∧
    (∀ t old new : Real, blend t old new =
      Real.cos (0.5 * Real.pi * t) * old + Real.sin (0.5 * Real.pi * t) * new) ∧
    (∀ old new : Real, blend 0 old new = old) ∧
    (∀ old new : Real, blend 1 old new = new) ∧
    Real.cos (0.5 * Real.pi * (1/2 : Real)) = Real.sqrt 2 / 2 ∧
    Real.sin (0.5 * Real.pi * (1/2 : Real)) = Real.sqrt 2 / 2 ∧
    |Real.sqrt 2 / 2 - 0.7071| < 0.0001 := by
  have hcos4 : (0.5 : Real) * Real.pi * (1/2) = Real.pi / 4 := by ring
  have hsq2 : Real.sqrt 2 ^ 2 = 2 := Real.sq_sqrt (by norm_num)
  have hsqnn : 0 ≤ Real.sqrt 2 := Real.sqrt_nonneg 2
  have hlow : (1.4142 : Real) < Real.sqrt 2 := by nlinarith [hsq2, hsqnn]
  have hhigh : Real.sqrt 2 < (1.4143 : Real) := by nlinarith [hsq2, hsqnn]
  refine ⟨?_, ?_, fun inc st => renderSample_true_projCF inc st,
    fun st => processBlock_projCF sampleRate B st,
    fun k hk => ((cfAt_char (crossfadeTotal sampleRate) B k hR hB cur tgt).1 hk).imp
      id (fun h => h.2),
    fun k hk =>
      ⟨((cfAt_char (crossfadeTotal sampleRate) B k hR hB cur tgt).2 hk).1,
        ((cfAt_char (crossfadeTotal sampleRate) B k hR hB cur tgt).2 hk).2.2⟩,
    ?_, fun t old new => rfl, ?_, ?_, ?_, ?_, ?_⟩
  · intro inc s hs
    rw [cfStep, if_neg (by omega)]
  · intro inc s hs
    rw [cfStep, if_pos (by omega), hs]
    norm_num
  · intro st inc
    rw [renderSample]
    dsimp only [nextSignedFloat, pinkFilter, brownFilter]
    by_cases h : st.crossfadeSamplesRemaining - 1 ≤ 0
    · rw [if_pos h]
    · rw [if_neg h]
  · intro old new
    rw [blend, mul_zero, Real.cos_zero, Real.sin_zero]
    ring
  · intro old new
    rw [blend, show (0.5 : Real) * Real.pi * 1 = Real.pi / 2 by ring,
      Real.cos_pi_div_two, Real.sin_pi_div_two]
    ring
  · rw [hcos4, Real.cos_pi_div_four]
  · rw [hcos4, Real.sin_pi_div_four]
  · rw [abs_sub_lt_iff]
    constructor <;> nlinarith [hlow, hhigh]

/-- Witness for C1 (amended) at a 100 Hz engine with block size 2. -/
theorem crossfade_spec_witness :
    (0 < crossfadeTotal 100 ∧ 0 < (2 : Nat)) ∧
    (∀ old new : Real, blend 1 old new = new) ∧
    (∀ k, crossfadeTotal 100 ≤ k →
      (cfAt 2 ⟨Mode.pink, Mode.brown, 0, (crossfadeTotal 100 : Int)⟩ k).progress = 1) := by
  have h := crossfade_spec 100 2 Mode.pink Mode.brown
    (by norm_num [crossfadeTotal]) (by norm_num)
  exact ⟨⟨by norm_num [crossfadeTotal], by norm_num⟩,
    h.2.2.2.2.2.2.2.2.2.1, fun k hk => (h.2.2.2.2.2.1 k hk).2⟩

/-! ## C6: the need-seed backpressure protocol -/

theorem ceil_div_bounds (T B : Nat) (hB : 0 < B) (hT : 0 < T) :
    T ≤ B * ((T + B - 1) / B) ∧ B * ((T + B - 1) / B) < T + B ∧
      0 < (T + B - 1) / B := by
  have hd := Nat.div_add_mod (T + B - 1) B
  have hm : (T + B - 1) % B < B := Nat.mod_lt _ hB
  have hP : 0 < (T + B - 1) / B := Nat.div_pos (by omega) hB
  refine ⟨by omega, by omega, hP⟩

theorem succ_mod_eq (P n : Nat) (hP : 0 < P) :
    (n % P + 1 = P → (n + 1) % P = 0) ∧
      (n % P + 1 ≠ P → (n + 1) % P = n % P + 1) := by
  have hd := Nat.div_add_mod n P
  have hm : n % P < P := Nat.mod_lt _ hP
  constructor
  · intro h
    have he : n + 1 = P * (n / P + 1) := by
      rw [Nat.mul_add, Nat.mul_one]
      omega
    rw [he, Nat.mul_mod_right]
  · intro h
    have he : n + 1 = P * (n / P) + (n % P + 1) := by omega
    rw [he, Nat.mul_add_mod, Nat.mod_eq_of_lt (by omega)]

theorem dvd_succ_iff_mod (P n : Nat) (hP : 0 < P) :
    P ∣ (n + 1) ↔ n % P + 1 = P := by
  have hm : n % P < P := Nat.mod_lt _ hP
  constructor
  · intro h
    by_contra hne
    have h2 := (succ_mod_eq P n hP).2 hne
    have h0 : (n + 1) % P = 0 := Nat.dvd_iff_mod_eq_zero.mp h
    omega
  · intro h
    have h0 := (succ_mod_eq P n hP).1 h
    exact Nat.dvd_of_mod_eq_zero h0

theorem emit_counter_iff (T B : Nat) (hB : 0 < B) (hT : 0 < T) (m : Nat)
    (hm : m < (T + B - 1) / B) :
    T ≤ m * B + B ↔ m + 1 = (T + B - 1) / B := by
  obtain ⟨h1, h2, hP⟩ := ceil_div_bounds T B hB hT
  constructor
  · intro h
    by_contra hne
    have hlt : m + 1 ≤ (T + B - 1) / B - 1 := by omega
    have hmul : (m + 1) * B ≤ ((T + B - 1) / B - 1) * B :=
      Nat.mul_le_mul_right B hlt
    have e1 : (m + 1) * B = m * B + B := by ring
    have e2 : ((T + B - 1) / B - 1) * B + B = B * ((T + B - 1) / B) := by
      have hpp : (T + B - 1) / B - 1 + 1 = (T + B - 1) / B :=
        Nat.succ_pred_eq_of_pos hP
      calc ((T + B - 1) / B - 1) * B + B = ((T + B - 1) / B - 1 + 1) * B := by ring
        _ = ((T + B - 1) / B) * B := by rw [hpp]
        _ = B * ((T + B - 1) / B) := Nat.mul_comm _ _
    omega
  · intro h
    have e3 : m * B + B = (m + 1) * B := by ring
    have e4 : (m + 1) * B = B * ((T + B - 1) / B) := by
      rw [h]
      exact Nat.mul_comm _ _
    omega

theorem blockRun_backpressure (sampleRate B : Nat) (st : EngineState)
    (hB : 0 < B) (hT : 0 < seedRequestThreshold sampleRate)
    (hc : st.samplesSinceLastSeed = 0) (hq : st.seedQueue.length < 2) (n : Nat) :
    (blockRun sampleRate B st n).samplesSinceLastSeed =
      (n % ((seedRequestThreshold sampleRate + B - 1) / B)) * B ∧
    (blockRun sampleRate B st n).seedQueue.length < 2 := by
  obtain ⟨hc1, hc2, hP⟩ := ceil_div_bounds (seedRequestThreshold sampleRate) B hB hT
  induction n with
  | zero =>
    constructor
    · rw [blockRun, Function.iterate_zero_apply, hc, Nat.zero_mod, Nat.zero_mul]
    · rw [blockRun, Function.iterate_zero_apply]
      exact hq
  | succ n ih =>
    have hstep : blockRun sampleRate B st (n + 1) =
        (processBlock sampleRate B (blockRun sampleRate B st n)).1 := by
      rw [blockRun, Function.iterate_succ_apply', blockRun]
    constructor
    · rw [hstep, processBlock_counter, ih.1]
      by_cases hcond : seedRequestThreshold sampleRate ≤
          (n % ((seedRequestThreshold sampleRate + B - 1) / B)) * B + B
      · rw [if_pos ⟨hcond, ih.2⟩]
        have hm1 := (emit_counter_iff (seedRequestThreshold sampleRate) B hB hT
          (n % ((seedRequestThreshold sampleRate + B - 1) / B))
          (Nat.mod_lt _ hP)).mp hcond
        rw [(succ_mod_eq _ n hP).1 hm1, Nat.zero_mul]
      · rw [if_neg (fun hcon => hcond hcon.1)]
        have hm1 : n % ((seedRequestThreshold sampleRate + B - 1) / B) + 1 ≠
            (seedRequestThreshold sampleRate + B - 1) / B := fun h =>
          hcond ((emit_counter_iff (seedRequestThreshold sampleRate) B hB hT
            (n % ((seedRequestThreshold sampleRate + B - 1) / B))
            (Nat.mod_lt _ hP)).mpr h)
        rw [(succ_mod_eq _ n hP).2 hm1]
        ring
    · rw [hstep, processBlock_seedQueue, List.length_tail]
      omega

/-- C6: each render block of B samples adds B to the samples-since-seed
counter and emits exactly one need-seed request (resetting the counter)
exactly when the counter reaches the threshold `floor(0.5*sampleRate)`
with fewer than 2 batches queued; a block whose queue already holds 2
batches emits nothing; and in a message-free run from a zero counter
with queue depth below 2, block n emits exactly when `ceil(T/B)` divides
n — one request per `ceil(T/B)` blocks. -/
theorem backpressure_spec (sampleRate B : Nat) (st : EngineState)
    (hB : 0 < B) (hT : 0 < seedRequestThreshold sampleRate)
    (hc : st.samplesSinceLastSeed = 0) (hq : st.seedQueue.length < 2) :
    (∀ s : EngineState, ((processBlock sampleRate B s).2 = true ↔
      (seedRequestThreshold sampleRate ≤ s.samplesSinceLastSeed + B ∧
        s.seedQueue.length < 2))) ∧
    (∀ s : EngineState, (processBlock sampleRate B s).1.samplesSinceLastSeed =
      if seedRequestThreshold sampleRate ≤ s.samplesSinceLastSeed + B ∧
          s.seedQueue.length < 2 then 0
      else s.samplesSinceLastSeed + B) ∧
    (∀ s : EngineState, 2 ≤ s.seedQueue.length →
      (processBlock sampleRate B s).2 = false) ∧
    seedRequestThreshold sampleRate = sampleRate / 2 ∧
    (∀ n : Nat, ((processBlock sampleRate B (blockRun sampleRate B st n)).2 = true ↔
      ((seedRequestThreshold sampleRate + B - 1) / B) ∣ (n + 1))) := by
  obtain ⟨hc1, hc2, hP⟩ := ceil_div_bounds (seedRequestThreshold sampleRate) B hB hT
  refine ⟨fun s => processBlock_emits sampleRate B s,
    fun s => processBlock_counter sampleRate B s, ?_, rfl, ?_⟩
  · intro s hs
    rw [Bool.eq_false_iff]
    intro htrue
    have h := (processBlock_emits sampleRate B s).mp htrue
    omega
  · intro n
    have hrun := blockRun_backpressure sampleRate B st hB hT hc hq n
    rw [processBlock_emits, hrun.1]
    constructor
    · rintro ⟨h1, _⟩
      exact (dvd_succ_iff_mod _ n hP).mpr
        ((emit_counter_iff (seedRequestThreshold sampleRate) B hB hT _
          (Nat.mod_lt _ hP)).mp h1)
    · intro hdvd
      exact ⟨(emit_counter_iff (seedRequestThreshold sampleRate) B hB hT _
        (Nat.mod_lt _ hP)).mpr ((dvd_succ_iff_mod _ n hP).mp hdvd), hrun.2⟩

/-- Witness for C6: a 4 Hz engine (threshold 2) with block size 1 emits
its first need-seed request at block 2 = ceil(2/1). -/
theorem backpressure_spec_witness :
    (0 < (1 : Nat) ∧ 0 < seedRequestThreshold 4 ∧
      (initEngine 4 0).samplesSinceLastSeed = 0 ∧
      (initEngine 4 0).seedQueue.length < 2) ∧
    (∀ n : Nat, ((processBlock 4 1 (blockRun 4 1 (initEngine 4 0) n)).2 = true ↔
      ((seedRequestThreshold 4 + 1 - 1) / 1) ∣ (n + 1))) := by
  have h := backpressure_spec 4 1 (initEngine 4 0) (by norm_num)
    (by norm_num [seedRequestThreshold]) rfl (show (0 : Nat) < 2 by norm_num)
  exact ⟨⟨by norm_num, by norm_num [seedRequestThreshold], rfl,
    show (0 : Nat) < 2 by norm_num⟩, h.2.2.2.2⟩
